import Mathlib

/-
  Verification development for the AI-Crypto-Predictor backend
  (src/webhook_server.py). The in-memory runtime state, the price
  refresh, the windowed baseline lookup, the alert evaluator and the
  alert-rule creation endpoint are embedded as Lean functions.

  Modelling conventions:
  - Python floats for prices, percent thresholds and wall-clock times
    are modelled as rationals; the logistic confidence signal, which
    goes through math.exp, is modelled over the reals with Real.exp.
  - Python round(x, 1) is modelled as mathematical rounding to the
    nearest tenth (Int.round of 10 * x divided by 10).
  - The f-string rule key f"email:sym:dir:percent:.2f" is modelled as a
    four-field structure whose last field is the threshold rounded to
    an integer number of hundredths, which is exactly the information
    the two-decimal formatting retains.
  - Python dicts are modelled as functions into Option.
-/

namespace CryptoSpec

/-- Direction literal, stored as the strings UP and DOWN in the source. -/
inductive Direction : Type
  | UP : Direction
  | DOWN : Direction
deriving DecidableEq

/-- ID_TO_SYMBOL from webhook_server.py. -/
def ID_TO_SYMBOL : List (String × String) :=
  [("bitcoin", "BTC"), ("ethereum", "ETH"), ("solana", "SOL"), ("cardano", "ADA"),
   ("ripple", "XRP"), ("binancecoin", "BNB"), ("dogecoin", "DOGE"),
   ("avalanche-2", "AVAX"), ("polygon", "MATIC"), ("litecoin", "LTC")]

/-- SYMBOLS = list(ID_TO_SYMBOL.values()). -/
def SYMBOLS : List String := ID_TO_SYMBOL.map (fun x => x.2)

/-- ID_TO_SYMBOL.get(cid, cid.upper()) from _refresh_prices_once. -/
def idToSymbol (cid : String) : String :=
  (ID_TO_SYMBOL.lookup cid).getD cid.toUpper

/-- percent_move from webhook_server.py: returns 0.0 when old is not
positive, otherwise the relative move scaled to percent. -/
def percent_move (old new : ℚ) : ℚ :=
  if old ≤ 0 then 0 else (new - old) / old * 100

/-- conf = 1 / (1 + math.exp(-abs(change) / 6)) from _refresh_prices_once. -/
noncomputable def conf_of (change : ℝ) : ℝ :=
  1 / (1 + Real.exp (-|change| / 6))

/-- Python round(x, 1) modelled as rounding to the nearest tenth. -/
noncomputable def roundTenth (x : ℝ) : ℝ :=
  (round (x * 10) : ℝ) / 10

/-- confidence = round(conf * 100, 1) from _refresh_prices_once. -/
noncomputable def confidence_of (change : ℝ) : ℝ :=
  roundTenth (conf_of change * 100)

/-- One element of prices_cache["data"]: symbol, price, 24h change and
derived direction. The derived confidence stored alongside them in the
source is a pure function of the change field, recovered below by
SnapEntry.confidenceVal, so the state stays executable. -/
structure SnapEntry : Type where
  symbol : String
  price : ℚ
  change : ℚ
  prediction : Direction
deriving DecidableEq

/-- The confidence the source stores in the entry, as a function of
the stored 24h change. -/
noncomputable def SnapEntry.confidenceVal (e : SnapEntry) : ℝ :=
  confidence_of (e.change : ℝ)

/-- The entry built for one coin id in _refresh_prices_once. -/
def mkEntry (cid : String) (usd chg : ℚ) : SnapEntry :=
  { symbol := idToSymbol cid
    price := usd
    change := chg
    prediction := if chg ≥ 0 then Direction.UP else Direction.DOWN }

/-- prices_cache: ts, data, stale, error. -/
structure CacheState : Type where
  ts : ℚ
  data : List SnapEntry
  stale : Bool
  error : Option String

/-- Rule key modelling f"email:symbol:direction:percent:.2f": the
centi field carries the threshold rounded to hundredths, which is the
information kept by the two-decimal formatting. -/
structure RuleKey : Type where
  email : String
  symbol : String
  direction : Direction
  centi : ℤ
deriving DecidableEq

/-- A persisted alert rule row (the four value fields of the Alert table). -/
structure Alert : Type where
  email : String
  symbol : String
  direction : Direction
  percent : ℚ
deriving DecidableEq

/-- The key computed for a rule in check_alerts_and_notify. -/
def alertKey (a : Alert) : RuleKey :=
  { email := a.email, symbol := a.symbol, direction := a.direction
    centi := round (100 * a.percent) }

/-- A dispatched notification: the rule that fired, the computed move
and the time of dispatch. -/
structure Sent : Type where
  rule : Alert
  move : ℚ
  sentAt : ℚ
deriving DecidableEq

/-- Pointwise dictionary update, later writes win. -/
def updateMap {α β : Type} [DecidableEq α] (m : α → Option β) (k : α) (v : β) :
    α → Option β :=
  fun k' => if k' = k then some v else m k'

/-- deque(maxlen=1440) append: drop the oldest element when at capacity. -/
def histAppend (h : List (ℚ × ℚ)) (x : ℚ × ℚ) : List (ℚ × ℚ) :=
  if h.length < 1440 then h ++ [x] else h.drop 1 ++ [x]

/-- The whole in-memory runtime of webhook_server.py that the sampler
and the evaluator share. -/
structure SysState : Type where
  prices_cache : CacheState
  last_prices : String → Option ℚ
  last_triggered_at : RuleKey → Option ℚ
  price_history : String → List (ℚ × ℚ)

/-- Initial module-level state: empty cache marked stale, empty maps,
empty per-symbol histories. -/
def initState : SysState :=
  { prices_cache := { ts := 0, data := [], stale := true, error := none }
    last_prices := fun _ => none
    last_triggered_at := fun _ => none
    price_history := fun _ => [] }

/-- Outcome of the upstream fetch in _refresh_prices_once: a 429
rate-limit response, any other transport or parsing exception, or a
parsed JSON body (coin id, usd price, usd_24h_change). -/
inductive FetchOutcome : Type
  | rateLimited : Option String → FetchOutcome
  | failure : String → FetchOutcome
  | ok : List (String × ℚ × ℚ) → FetchOutcome

/-- _refresh_prices_once from webhook_server.py. On 429 or any
exception it records the error, marks the cache stale and returns
false, touching nothing else. On success it rebuilds the data list,
replaces the cache, appends one history sample per fetched symbol and
records each fetched price in last_prices. -/
def _refresh_prices_once (out : FetchOutcome) (now : ℚ) (s : SysState) :
    Bool × SysState :=
  match out with
  | FetchOutcome.rateLimited retryAfter =>
      (false, { s with prices_cache :=
        { s.prices_cache with
          error := some ("429 Too Many Requests. Retry-After=" ++ retryAfter.getD "None")
          stale := true } })
  | FetchOutcome.failure msg =>
      (false, { s with prices_cache :=
        { s.prices_cache with error := some msg, stale := true } })
  | FetchOutcome.ok raw =>
      let data := raw.map (fun x => mkEntry x.1 x.2.1 x.2.2)
      let hist' := data.foldl
        (fun h e => fun sym =>
          if sym = e.symbol then histAppend (h sym) (now, e.price) else h sym)
        s.price_history
      let lp' := data.foldl (fun m e => updateMap m e.symbol e.price) s.last_prices
      (true,
        { prices_cache := { ts := now, data := data, stale := false, error := none }
          last_prices := lp'
          last_triggered_at := s.last_triggered_at
          price_history := hist' })

/-- sym_to_price = the dict comprehension over prices_cache["data"];
later entries win exactly as in a Python dict comprehension. -/
def symToPrice (data : List SnapEntry) : String → Option ℚ :=
  data.foldl (fun m e => updateMap m e.symbol e.price) (fun _ => none)

/-- hit = (a.direction == "UP" and mv >= a.percent) or
(a.direction == "DOWN" and mv <= -a.percent). -/
def ruleHit (a : Alert) (mv : ℚ) : Bool :=
  (decide (a.direction = Direction.UP) && decide (a.percent ≤ mv))
  || (decide (a.direction = Direction.DOWN) && decide (mv ≤ -a.percent))

/-- The per-rule loop of check_alerts_and_notify: skip symbols absent
from the cache, compute the move against last_prices (defaulting to
the current price), test the hit predicate, and on a hit consult and
update the cooldown map keyed by alertKey. The local bindings of the
source are inlined, and the two time.time() calls of a cycle (one in
the comparison, one stored after the send) are modelled as the single
cycle time now. -/
def evalRules (stp lp : String → Option ℚ) (now : ℚ) :
    List Alert → (RuleKey → Option ℚ) → List Sent × (RuleKey → Option ℚ)
  | [], lt => ([], lt)
  | a :: rest, lt =>
    match stp a.symbol with
    | none => evalRules stp lp now rest lt
    | some now_p =>
      if ruleHit a (percent_move ((lp a.symbol).getD now_p) now_p) then
        if 30 * 60 ≤ now - ((lt (alertKey a)).getD 0) then
          ({ rule := a, move := percent_move ((lp a.symbol).getD now_p) now_p, sentAt := now }
              :: (evalRules stp lp now rest (updateMap lt (alertKey a) now)).1,
           (evalRules stp lp now rest (updateMap lt (alertKey a) now)).2)
        else
          evalRules stp lp now rest lt
      else
        evalRules stp lp now rest lt

/-- check_alerts_and_notify from webhook_server.py: evaluate every
rule against the cached prices, then write each cached price into
last_prices. The initial refresh-if-empty is represented in traces as
an explicit refresh step preceding the alerts step. -/
def check_alerts_and_notify (rules : List Alert) (now : ℚ) (s : SysState) :
    List Sent × SysState :=
  let stp := symToPrice s.prices_cache.data
  let r := evalRules stp s.last_prices now rules s.last_triggered_at
  (r.1,
    { s with
      last_triggered_at := r.2
      last_prices := fun sym =>
        match stp sym with
        | some p => some p
        | none => s.last_prices sym })

/-- One scheduler event: a 30-second refresh tick or a 60-second
alert-evaluation tick. -/
inductive Step : Type
  | refresh : FetchOutcome → ℚ → Step
  | alerts : List Alert → ℚ → Step

/-- State transition of one scheduler event. -/
def runStep (s : SysState) : Step → SysState
  | Step.refresh out now => (_refresh_prices_once out now s).2
  | Step.alerts rules now => (check_alerts_and_notify rules now s).2

/-- Run a sequence of scheduler events from a given state. -/
def runFrom (s : SysState) (steps : List Step) : SysState :=
  steps.foldl runStep s

/-- Run a sequence of scheduler events from process start. -/
def runTrace (steps : List Step) : SysState :=
  runFrom initState steps

/-- All notifications dispatched while running a sequence of events. -/
def collectSents (s : SysState) : List Step → List Sent
  | [] => []
  | Step.refresh out now :: rest =>
      collectSents ((_refresh_prices_once out now s).2) rest
  | Step.alerts rules now :: rest =>
      (check_alerts_and_notify rules now s).1
        ++ collectSents ((check_alerts_and_notify rules now s).2) rest

/-- The baseline chosen by get_window_change: the first recorded
sample at or after the cutoff, else the oldest sample, else the
current price. -/
def windowBaseline (hist : List (ℚ × ℚ)) (cutoff current_price : ℚ) : ℚ :=
  match hist.find? (fun sample => decide (cutoff ≤ sample.1)) with
  | some sample => sample.2
  | none =>
    match hist with
    | [] => current_price
    | s0 :: _ => s0.2

/-- get_window_change from webhook_server.py. -/
def get_window_change (hist : List (ℚ × ℚ)) (now minutes current_price : ℚ) : ℚ :=
  if minutes ≤ 0 then 0
  else percent_move (windowBaseline hist (now - minutes * 60) current_price) current_price

/-- create_alert from webhook_server.py: normalise the email, look for
an existing row matching all four value fields, append a new row only
when none exists. -/
def create_alert (rules : List Alert) (email symbol : String)
    (direction : Direction) (percent : ℚ) : List Alert :=
  let e := email.trim.toLower
  if rules.any (fun r =>
      decide (r.email = e) && decide (r.symbol = symbol)
      && decide (r.direction = direction) && decide (r.percent = percent))
  then rules
  else rules ++ [{ email := e, symbol := symbol, direction := direction, percent := percent }]

/-- Agreement between the cached prices and the evaluator baseline
map: every symbol present in the cache has its cached price recorded
in last_prices. This holds in every reachable state because the
refresh writes each fetched price into last_prices as well. -/
def cacheAgrees (s : SysState) : Prop :=
  ∀ sym p, symToPrice s.prices_cache.data sym = some p → s.last_prices sym = some p

/-
  Concrete fixtures used by witnesses and counterexamples.
-/

/-- A concrete alert rule used in witnesses. -/
def wAlert : Alert := ⟨"u@x.com", "BTC", Direction.UP, 5⟩

/-- A state in which the witness rule last fired at time 10000. -/
def wCooldownState : SysState :=
  { prices_cache := { ts := 0, data := [], stale := true, error := none }
    last_prices := fun _ => none
    last_triggered_at := fun k => if k = alertKey wAlert then some 10000 else none
    price_history := fun _ => [] }

/-- A state holding a cached BTC price of 106 against a previous
evaluator price of 100, with no fire recorded. -/
def wFireState : SysState :=
  { prices_cache := { ts := 0, data := [mkEntry "bitcoin" 106 0], stale := false, error := none }
    last_prices := fun sym => if sym = "BTC" then some 100 else none
    last_triggered_at := fun _ => none
    price_history := fun _ => [] }

/-
  Theorems.
-/

theorem percent_move_self (p : ℚ) : percent_move p p = 0 := by
  unfold percent_move
  split
  · rfl
  · simp

/-- C5: for every rule and previous/current prices with positive
previous price, the rule hits exactly when the direction is UP and the
percent move reaches the threshold or the direction is DOWN and the
percent move reaches the negated threshold; in particular, with
threshold 5 an UP rule hits for 100 to 106 but not 100 to 104, and a
DOWN rule hits for 100 to 94 but not 100 to 96. -/
theorem C5_hit_characterisation :
    (∀ (a : Alert) (prev cur : ℚ), 0 < prev →
      (ruleHit a (percent_move prev cur) = true ↔
        (a.direction = Direction.UP ∧ a.percent ≤ percent_move prev cur)
        ∨ (a.direction = Direction.DOWN ∧ percent_move prev cur ≤ -a.percent)))
    ∧ ruleHit ⟨"u", "BTC", Direction.UP, 5⟩ (percent_move 100 106) = true
    ∧ ruleHit ⟨"u", "BTC", Direction.UP, 5⟩ (percent_move 100 104) = false
    ∧ ruleHit ⟨"u", "BTC", Direction.DOWN, 5⟩ (percent_move 100 94) = true
    ∧ ruleHit ⟨"u", "BTC", Direction.DOWN, 5⟩ (percent_move 100 96) = false := by
  refine ⟨fun a prev cur hprev => ?_, ?_, ?_, ?_, ?_⟩
  · rcases a with ⟨e, sym, d, p⟩
    cases d <;> simp [ruleHit]
  all_goals norm_num [ruleHit, percent_move]

theorem C5_hit_characterisation_witness :
    (0:ℚ) < 100 ∧
    (ruleHit ⟨"u", "BTC", Direction.UP, 5⟩ (percent_move 100 106) = true ↔
      ((⟨"u", "BTC", Direction.UP, 5⟩ : Alert).direction = Direction.UP
          ∧ (⟨"u", "BTC", Direction.UP, 5⟩ : Alert).percent ≤ percent_move 100 106)
      ∨ ((⟨"u", "BTC", Direction.UP, 5⟩ : Alert).direction = Direction.DOWN
          ∧ percent_move 100 106 ≤ -(⟨"u", "BTC", Direction.UP, 5⟩ : Alert).percent)) :=
  ⟨by norm_num, C5_hit_characterisation.1 ⟨"u", "BTC", Direction.UP, 5⟩ 100 106 (by norm_num)⟩

theorem histAppend_length_le (h : List (ℚ × ℚ)) (x : ℚ × ℚ)
    (hl : h.length ≤ 1440) : (histAppend h x).length ≤ 1440 := by
  unfold histAppend
  split
  · simp
    omega
  · simp
    omega

theorem foldl_histAppend_fill (xs : List (ℚ × ℚ)) (hl : xs.length ≤ 1440) :
    xs.foldl histAppend [] = xs := by
  induction xs using List.reverseRecOn with
  | nil => rfl
  | append_singleton ys y ih =>
    rw [List.foldl_append]
    simp only [List.length_append, List.length_singleton] at hl
    rw [ih (by omega), List.foldl_cons, List.foldl_nil]
    unfold histAppend
    rw [if_pos (by omega)]

/-- C6: the per-symbol history deque never exceeds its capacity of
1440 samples under any sequence of appends, and an append at capacity
evicts exactly the single oldest sample, observable by performing
capacity plus one appends from empty. -/
theorem C6_history_capacity :
    (∀ start : List (ℚ × ℚ), start.length ≤ 1440 →
      ∀ xs : List (ℚ × ℚ), (xs.foldl histAppend start).length ≤ 1440)
    ∧ (∀ (h : List (ℚ × ℚ)) (x : ℚ × ℚ), h.length = 1440 →
        histAppend h x = h.drop 1 ++ [x])
    ∧ (∀ xs : List (ℚ × ℚ), xs.length = 1441 →
        xs.foldl histAppend [] = xs.drop 1) := by
  refine ⟨?_, ?_, ?_⟩
  · intro start hstart xs
    induction xs generalizing start with
    | nil => simpa
    | cons y ys ih => exact ih _ (histAppend_length_le start y hstart)
  · intro h x hlen
    unfold histAppend
    rw [if_neg (by omega)]
  · intro xs hlen
    induction xs using List.reverseRecOn with
    | nil => simp at hlen
    | append_singleton ys y ih =>
      simp only [List.length_append, List.length_singleton] at hlen
      rw [List.foldl_append]
      rw [foldl_histAppend_fill ys (by omega), List.foldl_cons, List.foldl_nil]
      unfold histAppend
      rw [if_neg (by omega)]
      rcases ys with _ | ⟨a, as⟩
      · simp at hlen
      · simp

theorem C6_history_capacity_witness :
    ((List.replicate 1441 ((0:ℚ), (0:ℚ))).foldl histAppend []).length ≤ 1440
    ∧ histAppend (List.replicate 1440 ((0:ℚ), (0:ℚ))) (1, 1)
        = (List.replicate 1440 ((0:ℚ), (0:ℚ))).drop 1 ++ [(1, 1)]
    ∧ (List.replicate 1441 ((0:ℚ), (0:ℚ))).foldl histAppend []
        = (List.replicate 1441 ((0:ℚ), (0:ℚ))).drop 1 :=
  ⟨C6_history_capacity.1 [] (by simp) _,
   C6_history_capacity.2.1 _ _ (by rw [List.length_replicate]),
   C6_history_capacity.2.2 _ (by rw [List.length_replicate])⟩

theorem create_alert_any_iff (rules : List Alert) (e sym : String)
    (d : Direction) (p : ℚ) :
    (rules.any fun r =>
        decide (r.email = e) && decide (r.symbol = sym)
        && decide (r.direction = d) && decide (r.percent = p)) = true
      ↔ (⟨e, sym, d, p⟩ : Alert) ∈ rules := by
  simp only [List.any_eq_true, Bool.and_eq_true, decide_eq_true_eq]
  constructor
  · rintro ⟨r, hr, ⟨⟨h1, h2⟩, h3⟩, h4⟩
    have : r = ⟨e, sym, d, p⟩ := by
      rcases r with ⟨re, rs, rd, rp⟩
      simp_all
    rwa [this] at hr
  · intro hmem
    exact ⟨⟨e, sym, d, p⟩, hmem, ⟨⟨rfl, rfl⟩, rfl⟩, rfl⟩

/-- C7: rule creation is idempotent on the value tuple: creating a
rule whose four fields match an existing row leaves the rule set
unchanged, creating a rule with a fresh tuple appends exactly that
one row, and creating twice equals creating once. -/
theorem C7_create_idempotent :
    ∀ (rules : List Alert) (email sym : String) (d : Direction) (p : ℚ),
      ((⟨email.trim.toLower, sym, d, p⟩ : Alert) ∈ rules →
        create_alert rules email sym d p = rules)
      ∧ ((⟨email.trim.toLower, sym, d, p⟩ : Alert) ∉ rules →
        create_alert rules email sym d p
          = rules ++ [⟨email.trim.toLower, sym, d, p⟩])
      ∧ create_alert (create_alert rules email sym d p) email sym d p
          = create_alert rules email sym d p := by
  intro rules email sym d p
  refine ⟨?_, ?_, ?_⟩
  · intro hmem
    unfold create_alert
    rw [if_pos ((create_alert_any_iff rules _ sym d p).mpr hmem)]
  · intro hmem
    unfold create_alert
    rw [if_neg (fun hc => hmem ((create_alert_any_iff rules _ sym d p).mp hc))]
  · by_cases hmem : (⟨email.trim.toLower, sym, d, p⟩ : Alert) ∈ rules
    · unfold create_alert
      rw [if_pos ((create_alert_any_iff rules _ sym d p).mpr hmem),
          if_pos ((create_alert_any_iff rules _ sym d p).mpr hmem)]
    · have h1 : create_alert rules email sym d p
          = rules ++ [⟨email.trim.toLower, sym, d, p⟩] := by
        unfold create_alert
        rw [if_neg (fun hc => hmem ((create_alert_any_iff rules _ sym d p).mp hc))]
      rw [h1]
      unfold create_alert
      rw [if_pos ((create_alert_any_iff _ _ sym d p).mpr (by simp))]

theorem find?_eq_get_of_first {α : Type} (l : List α) (p : α → Bool) :
    ∀ (i : ℕ) (hi : i < l.length), p (l.get ⟨i, hi⟩) = true →
      (∀ (j : ℕ) (hj : j < i), p (l.get ⟨j, Nat.lt_trans hj hi⟩) = false) →
      l.find? p = some (l.get ⟨i, hi⟩) := by
  induction l with
  | nil => intro i hi; simp at hi
  | cons a as ih =>
    intro i hi hp hmin
    cases i with
    | zero =>
      simp only [List.get] at hp
      rw [List.find?_cons_of_pos _ hp]
      rfl
    | succ k =>
      have ha : p a = false := hmin 0 (Nat.succ_pos k)
      rw [List.find?_cons_of_neg _ (by simp [ha])]
      simp only [List.get] at hp ⊢
      exact ih k (Nat.lt_of_succ_lt_succ hi) hp
        (fun j hj => hmin (j + 1) (Nat.succ_lt_succ hj))

/-- C3: the windowed baseline is the earliest-recorded sample whose
timestamp is at or after the cutoff when one exists, otherwise the
oldest sample of a non-empty history, otherwise the current price, in
which case the windowed change is exactly zero; the lookup is total
and never errors. -/
theorem C3_window_baseline :
    ∀ (hist : List (ℚ × ℚ)) (now minutes current : ℚ), 0 < minutes →
      (∀ (i : ℕ) (hi : i < hist.length),
        now - minutes * 60 ≤ (hist.get ⟨i, hi⟩).1 →
        (∀ (j : ℕ) (hj : j < i), (hist.get ⟨j, Nat.lt_trans hj hi⟩).1 < now - minutes * 60) →
        windowBaseline hist (now - minutes * 60) current = (hist.get ⟨i, hi⟩).2
        ∧ get_window_change hist now minutes current
            = percent_move (hist.get ⟨i, hi⟩).2 current)
      ∧ (∀ h' : hist ≠ [], (∀ s ∈ hist, s.1 < now - minutes * 60) →
          windowBaseline hist (now - minutes * 60) current = (hist.head h').2)
      ∧ (hist = [] →
          windowBaseline hist (now - minutes * 60) current = current
          ∧ get_window_change hist now minutes current = 0) := by
  intro hist now minutes current hmin
  have hnotle : ¬ minutes ≤ 0 := not_le.mpr hmin
  refine ⟨?_, ?_, ?_⟩
  · intro i hi hrecent hbefore
    have hfind : hist.find? (fun sample => decide (now - minutes * 60 ≤ sample.1))
        = some (hist.get ⟨i, hi⟩) := by
      refine find?_eq_get_of_first hist _ i hi (by simpa using hrecent) ?_
      intro j hj
      simpa using not_le.mpr (hbefore j hj)
    have hbase : windowBaseline hist (now - minutes * 60) current
        = (hist.get ⟨i, hi⟩).2 := by
      unfold windowBaseline
      rw [hfind]
    refine ⟨hbase, ?_⟩
    unfold get_window_change
    rw [if_neg hnotle, hbase]
  · intro h' hall
    have hfind : hist.find? (fun sample => decide (now - minutes * 60 ≤ sample.1))
        = none := by
      rw [List.find?_eq_none]
      intro s hs
      simpa using not_le.mpr (hall s hs)
    unfold windowBaseline
    rw [hfind]
    rcases hist with _ | ⟨s0, rest⟩
    · exact absurd rfl h'
    · rfl
  · intro hnil
    subst hnil
    have hbase : windowBaseline [] (now - minutes * 60) current = current := rfl
    refine ⟨hbase, ?_⟩
    unfold get_window_change
    rw [if_neg hnotle, hbase, percent_move_self]

theorem C3_window_baseline_witness :
    (0:ℚ) < 5
    ∧ (windowBaseline [((100:ℚ), (10:ℚ)), (200, 20)] (500 - 5 * 60) 30
          = (([((100:ℚ), (10:ℚ)), (200, 20)]).get ⟨1, by norm_num⟩).2
        ∧ get_window_change [((100:ℚ), (10:ℚ)), (200, 20)] 500 5 30
          = percent_move (([((100:ℚ), (10:ℚ)), (200, 20)]).get ⟨1, by norm_num⟩).2 30)
    ∧ (windowBaseline ([] : List (ℚ × ℚ)) (500 - 5 * 60) 30 = 30
        ∧ get_window_change ([] : List (ℚ × ℚ)) 500 5 30 = 0) := by
  refine ⟨by norm_num, ?_, ?_⟩
  · refine (C3_window_baseline [((100:ℚ), (10:ℚ)), (200, 20)] 500 5 30 (by norm_num)).1
      1 (by norm_num) (by norm_num [List.get]) ?_
    intro j hj
    have hj0 : j = 0 := by omega
    subst hj0
    norm_num [List.get]
  · exact (C3_window_baseline ([] : List (ℚ × ℚ)) 500 5 30 (by norm_num)).2.2 rfl

theorem C7_create_idempotent_witness :
    ((⟨"a@b.com".trim.toLower, "BTC", Direction.UP, 5⟩ : Alert) ∉ ([] : List Alert))
    ∧ create_alert [] "a@b.com" "BTC" Direction.UP 5
        = [⟨"a@b.com".trim.toLower, "BTC", Direction.UP, 5⟩] :=
  ⟨by simp,
   ((C7_create_idempotent [] "a@b.com" "BTC" Direction.UP 5).2.1 (by simp))⟩

theorem evalRules_suppressed (stp lp : String → Option ℚ) (now : ℚ)
    (rules : List Alert) (lt : RuleKey → Option ℚ) (key : RuleKey) (t : ℚ)
    (hkey : lt key = some t) (hcool : now - t < 30 * 60) :
    (∀ x ∈ (evalRules stp lp now rules lt).1, alertKey x.rule ≠ key)
    ∧ (evalRules stp lp now rules lt).2 key = some t := by
  induction rules generalizing lt with
  | nil =>
    simp only [evalRules]
    exact ⟨by simp, hkey⟩
  | cons a rest ih =>
    cases hstp : stp a.symbol with
    | none =>
      simp only [evalRules, hstp]
      exact ih lt hkey
    | some now_p =>
      simp only [evalRules, hstp]
      by_cases hhit : ruleHit a (percent_move ((lp a.symbol).getD now_p) now_p) = true
      · rw [if_pos hhit]
        by_cases hk : alertKey a = key
        · have hlast : ((lt (alertKey a)).getD 0) = t := by rw [hk, hkey]; rfl
          rw [hlast, if_neg (by linarith)]
          exact ih lt hkey
        · by_cases hcd : 30 * 60 ≤ now - ((lt (alertKey a)).getD 0)
          · rw [if_pos hcd]
            have hkey' : updateMap lt (alertKey a) now key = some t := by
              unfold updateMap
              rw [if_neg (fun hc : key = alertKey a => hk hc.symm)]
              exact hkey
            obtain ⟨h1, h2⟩ := ih (updateMap lt (alertKey a) now) hkey'
            refine ⟨?_, h2⟩
            intro x hx
            rcases List.mem_cons.mp hx with hx | hx
            · rw [hx]
              exact hk
            · exact h1 x hx
          · rw [if_neg hcd]
            exact ih lt hkey
      · rw [if_neg hhit]
        exact ih lt hkey

theorem refresh_preserves_cooldown (out : FetchOutcome) (now : ℚ) (s : SysState) :
    ((_refresh_prices_once out now s).2).last_triggered_at = s.last_triggered_at := by
  cases out <;> rfl

/-- C2: once a notification for a rule key has been recorded at time
t, no later evaluation cycle whose time is within 30 minutes of t
dispatches a notification for that key, however many cycles observe a
breaching price, and the recorded instant is unchanged; a hit whose
cooldown has elapsed, or with no prior fire recorded (given a
wall-clock at least 30 minutes after the epoch, since the code treats
a missing entry as a last fire at time 0), dispatches and records the
evaluation time. -/
theorem C2_cooldown :
    (∀ (steps : List Step) (s : SysState) (key : RuleKey) (t : ℚ),
      s.last_triggered_at key = some t →
      (∀ (rules : List Alert) (now : ℚ), Step.alerts rules now ∈ steps → now - t < 30 * 60) →
      (∀ x ∈ collectSents s steps, alertKey x.rule ≠ key)
      ∧ (runFrom s steps).last_triggered_at key = some t)
    ∧ (∀ (s : SysState) (a : Alert) (now now_p : ℚ),
      symToPrice s.prices_cache.data a.symbol = some now_p →
      ruleHit a (percent_move ((s.last_prices a.symbol).getD now_p) now_p) = true →
      ((s.last_triggered_at (alertKey a) = none ∧ 30 * 60 ≤ now)
        ∨ (∃ t, s.last_triggered_at (alertKey a) = some t ∧ t + 30 * 60 ≤ now)) →
      (check_alerts_and_notify [a] now s).1
          = [⟨a, percent_move ((s.last_prices a.symbol).getD now_p) now_p, now⟩]
      ∧ (check_alerts_and_notify [a] now s).2.last_triggered_at (alertKey a) = some now) := by
  constructor
  · intro steps
    induction steps with
    | nil =>
      intro s key t hkey hsteps
      exact ⟨by simp [collectSents], by simpa [runFrom] using hkey⟩
    | cons st rest ih =>
      intro s key t hkey hsteps
      cases st with
      | refresh out fnow =>
        have hkey' : ((_refresh_prices_once out fnow s).2).last_triggered_at key = some t := by
          rw [refresh_preserves_cooldown]
          exact hkey
        have hrest := ih ((_refresh_prices_once out fnow s).2) key t hkey'
          (fun rules now hmem => hsteps rules now (List.mem_cons_of_mem _ hmem))
        refine ⟨?_, ?_⟩
        · intro x hx
          exact hrest.1 x hx
        · simpa [runFrom, runStep] using hrest.2
      | alerts rules anow =>
        have hcool : anow - t < 30 * 60 :=
          hsteps rules anow (List.mem_cons_self _ _)
        have hcycle := evalRules_suppressed (symToPrice s.prices_cache.data)
          s.last_prices anow rules s.last_triggered_at key t hkey hcool
        have hkey' : ((check_alerts_and_notify rules anow s).2).last_triggered_at key
            = some t := hcycle.2
        have hrest := ih ((check_alerts_and_notify rules anow s).2) key t hkey'
          (fun rules' now' hmem => hsteps rules' now' (List.mem_cons_of_mem _ hmem))
        refine ⟨?_, ?_⟩
        · intro x hx
          rw [collectSents] at hx
          rcases List.mem_append.mp hx with hx | hx
          · exact hcycle.1 x hx
          · exact hrest.1 x hx
        · simpa [runFrom, runStep] using hrest.2
  · intro s a now now_p hstp hhit hready
    have hcd : 30 * 60 ≤ now - ((s.last_triggered_at (alertKey a)).getD 0) := by
      rcases hready with ⟨hnone, hnow⟩ | ⟨t, hsome, ht⟩
      · rw [hnone]
        simpa using hnow
      · rw [hsome]
        simp only [Option.getD_some]
        linarith
    have hfire : evalRules (symToPrice s.prices_cache.data) s.last_prices now [a]
        s.last_triggered_at
        = ([⟨a, percent_move ((s.last_prices a.symbol).getD now_p) now_p, now⟩],
           updateMap s.last_triggered_at (alertKey a) now) := by
      simp only [evalRules, hstp]
      rw [if_pos hhit, if_pos hcd]
    constructor
    · show (evalRules (symToPrice s.prices_cache.data) s.last_prices now [a]
        s.last_triggered_at).1 = _
      rw [hfire]
    · show (evalRules (symToPrice s.prices_cache.data) s.last_prices now [a]
        s.last_triggered_at).2 (alertKey a) = some now
      rw [hfire]
      simp [updateMap]

theorem C2_cooldown_witness :
    (runFrom wCooldownState [Step.alerts [wAlert] 10600]).last_triggered_at
        (alertKey wAlert) = some 10000
    ∧ (check_alerts_and_notify [wAlert] 2000 wFireState).1
        = [⟨wAlert, percent_move ((wFireState.last_prices wAlert.symbol).getD 106) 106, 2000⟩]
    ∧ (check_alerts_and_notify [wAlert] 2000 wFireState).2.last_triggered_at
        (alertKey wAlert) = some 2000 :=
  ⟨(C2_cooldown.1 [Step.alerts [wAlert] 10600] wCooldownState (alertKey wAlert) 10000
      (by simp [wCooldownState])
      (by
        intro rules now h
        simp only [List.mem_singleton, Step.alerts.injEq] at h
        rw [h.2]
        norm_num)).2,
   (C2_cooldown.2 wFireState wAlert 2000 106
      (by simp [wFireState, symToPrice, mkEntry, idToSymbol, ID_TO_SYMBOL, updateMap, wAlert])
      (by norm_num [wFireState, wAlert, ruleHit, percent_move])
      (Or.inl ⟨rfl, by norm_num⟩)).1,
   (C2_cooldown.2 wFireState wAlert 2000 106
      (by simp [wFireState, symToPrice, mkEntry, idToSymbol, ID_TO_SYMBOL, updateMap, wAlert])
      (by norm_num [wFireState, wAlert, ruleHit, percent_move])
      (Or.inl ⟨rfl, by norm_num⟩)).2⟩

theorem round_5001_centi : round ((100:ℚ) * (5001/1000)) = 500 := by
  rw [round_eq]
  norm_num

theorem round_5004_centi : round ((100:ℚ) * (5004/1000)) = 500 := by
  rw [round_eq]
  norm_num

theorem alertKey_5001 :
    alertKey ⟨"u@x.com", "BTC", Direction.UP, 5001/1000⟩
      = ⟨"u@x.com", "BTC", Direction.UP, 500⟩ := by
  simp only [alertKey]
  rw [round_5001_centi]

theorem alertKey_5004 :
    alertKey ⟨"u@x.com", "BTC", Direction.UP, 5004/1000⟩
      = ⟨"u@x.com", "BTC", Direction.UP, 500⟩ := by
  simp only [alertKey]
  rw [round_5004_centi]

/-- C9: the cooldown key keeps only two decimals of the threshold, so
two rules sharing owner, symbol and direction whose thresholds agree
after rounding to hundredths (such as 5.001 and 5.004) produce the
same key, and a fire of the first suppresses a breaching hit of the
second within the 30-minute window. -/
theorem C9_key_two_decimals :
    (∀ (e sym : String) (d : Direction) (p₁ p₂ : ℚ),
        round (100 * p₁) = round (100 * p₂) →
        alertKey ⟨e, sym, d, p₁⟩ = alertKey ⟨e, sym, d, p₂⟩)
    ∧ alertKey ⟨"u@x.com", "BTC", Direction.UP, 5001/1000⟩
        = alertKey ⟨"u@x.com", "BTC", Direction.UP, 5004/1000⟩
    ∧ (evalRules (fun sym => if sym = "BTC" then some 106 else none)
          (fun sym => if sym = "BTC" then some 100 else none) 100000
          [⟨"u@x.com", "BTC", Direction.UP, 5001/1000⟩] (fun _ => none)).1
        = [⟨⟨"u@x.com", "BTC", Direction.UP, 5001/1000⟩, 6, 100000⟩]
    ∧ ruleHit ⟨"u@x.com", "BTC", Direction.UP, 5004/1000⟩ (percent_move 100 106) = true
    ∧ (evalRules (fun sym => if sym = "BTC" then some 106 else none)
          (fun sym => if sym = "BTC" then some 100 else none) 100600
          [⟨"u@x.com", "BTC", Direction.UP, 5004/1000⟩]
          ((evalRules (fun sym => if sym = "BTC" then some 106 else none)
              (fun sym => if sym = "BTC" then some 100 else none) 100000
              [⟨"u@x.com", "BTC", Direction.UP, 5001/1000⟩] (fun _ => none)).2)).1
        = [] := by
  have hinner : (evalRules (fun sym => if sym = "BTC" then some 106 else none)
      (fun sym => if sym = "BTC" then some 100 else none) 100000
      [⟨"u@x.com", "BTC", Direction.UP, 5001/1000⟩] (fun _ => none)).2
        = updateMap (fun _ => none) (⟨"u@x.com", "BTC", Direction.UP, 500⟩ : RuleKey)
            100000 := by
    rw [← alertKey_5001]
    norm_num [evalRules, ruleHit, percent_move]
  refine ⟨?_, ?_, ?_, ?_, ?_⟩
  · intro e sym d p₁ p₂ h
    simp only [alertKey]
    rw [h]
  · rw [alertKey_5001, alertKey_5004]
  · norm_num [evalRules, ruleHit, percent_move]
  · norm_num [ruleHit, percent_move]
  · rw [hinner]
    simp only [evalRules, alertKey_5004]
    norm_num [ruleHit, percent_move, updateMap]

theorem foldl_update_mono (data : List SnapEntry) :
    ∀ (m₁ m₂ : String → Option ℚ),
      (∀ sym p, m₁ sym = some p → m₂ sym = some p) →
      ∀ sym p,
        (data.foldl (fun m e => updateMap m e.symbol e.price) m₁) sym = some p →
        (data.foldl (fun m e => updateMap m e.symbol e.price) m₂) sym = some p := by
  induction data with
  | nil =>
    intro m₁ m₂ h sym p
    simpa using h sym p
  | cons e es ih =>
    intro m₁ m₂ h sym p
    simp only [List.foldl_cons]
    refine ih _ _ ?_ sym p
    intro sym' p'
    unfold updateMap
    by_cases hs : sym' = e.symbol
    · rw [if_pos hs, if_pos hs]
      exact id
    · rw [if_neg hs, if_neg hs]
      exact h sym' p'

theorem runStep_preserves_agree (s : SysState) (st : Step)
    (h : cacheAgrees s) : cacheAgrees (runStep s st) := by
  cases st with
  | refresh out fnow =>
    cases out with
    | rateLimited ra => exact h
    | failure msg => exact h
    | ok raw =>
      intro sym p hsp
      refine foldl_update_mono _ _ _ ?_ sym p hsp
      intro sym' p' h'
      simp at h'
  | alerts rules anow =>
    intro sym p hsp
    have hsp' : symToPrice s.prices_cache.data sym = some p := hsp
    simp only [runStep, check_alerts_and_notify]
    rw [hsp']

theorem runFrom_preserves_agree (steps : List Step) :
    ∀ s : SysState, cacheAgrees s → cacheAgrees (runFrom s steps) := by
  induction steps with
  | nil => intro s h; exact h
  | cons st rest ih =>
    intro s h
    exact ih _ (runStep_preserves_agree s st h)

theorem runTrace_agrees (steps : List Step) : cacheAgrees (runTrace steps) := by
  refine runFrom_preserves_agree steps initState ?_
  intro sym p h
  simp [symToPrice, initState] at h

theorem ruleHit_zero_of_pos (a : Alert) (hpos : 0 < a.percent) :
    ruleHit a 0 = false := by
  rcases a with ⟨e, sym, d, p⟩
  simp only at hpos
  cases d <;> simp [ruleHit] <;> linarith

theorem evalRules_no_hits (stp lp : String → Option ℚ) (now : ℚ)
    (rules : List Alert) (lt : RuleKey → Option ℚ)
    (h : ∀ a ∈ rules, ∀ p, stp a.symbol = some p →
      ruleHit a (percent_move ((lp a.symbol).getD p) p) = false) :
    evalRules stp lp now rules lt = ([], lt) := by
  induction rules with
  | nil => rfl
  | cons a rest ih =>
    cases hstp : stp a.symbol with
    | none =>
      simp only [evalRules, hstp]
      exact ih (fun b hb => h b (List.mem_cons_of_mem _ hb))
    | some p =>
      simp only [evalRules, hstp]
      rw [if_neg (by simp [h a (List.mem_cons_self _ _) p hstp])]
      exact ih (fun b hb => h b (List.mem_cons_of_mem _ hb))

/-- In every reachable state the evaluator computes a zero move for
every rule whose symbol is cached, because each successful refresh
overwrites the evaluator baseline with the price it caches; hence no
rule with a positive threshold ever produces a notification. -/
theorem alerts_never_fire_on_any_trace (steps : List Step) (rules : List Alert)
    (now : ℚ) (hpos : ∀ a ∈ rules, 0 < a.percent) :
    (check_alerts_and_notify rules now (runTrace steps)).1 = [] := by
  have hagree := runTrace_agrees steps
  show (evalRules (symToPrice (runTrace steps).prices_cache.data)
    (runTrace steps).last_prices now rules (runTrace steps).last_triggered_at).1 = []
  rw [evalRules_no_hits]
  intro a ha p hp
  rw [hagree a.symbol p hp]
  simp only [Option.getD_some]
  rw [percent_move_self]
  exact ruleHit_zero_of_pos a (hpos a ha)

/-- C1: the claim fails on the code. In the trace below the evaluator
cycle at time 1030 observes BTC at 100; a refresh at time 1060 then
caches BTC at 106 and also overwrites last_prices.  At the next cycle
the percent move the claim mandates is (106 - 100) / 100 * 100 = 6,
which meets the 5 percent UP threshold, yet the evaluation at time
1090 computes a move of 0 and dispatches nothing, because last_prices
no longer holds the price the evaluator observed on its immediately
preceding cycle. -/
theorem C1_baseline_overwritten_by_refresh :
    (runTrace
        [Step.refresh (FetchOutcome.ok [("bitcoin", 100, 0)]) 1000,
         Step.alerts [wAlert] 1030,
         Step.refresh (FetchOutcome.ok [("bitcoin", 106, 6)]) 1060]).last_prices "BTC"
      = some 106
    ∧ (check_alerts_and_notify [wAlert] 1090
        (runTrace
          [Step.refresh (FetchOutcome.ok [("bitcoin", 100, 0)]) 1000,
           Step.alerts [wAlert] 1030,
           Step.refresh (FetchOutcome.ok [("bitcoin", 106, 6)]) 1060])).1 = []
    ∧ percent_move 100 106 = 6
    ∧ ruleHit wAlert (percent_move 100 106) = true := by
  refine ⟨?_, ?_, ?_, ?_⟩
  · norm_num [runTrace, runFrom, runStep, _refresh_prices_once, mkEntry, idToSymbol,
      ID_TO_SYMBOL, updateMap, initState, histAppend, check_alerts_and_notify, evalRules,
      symToPrice, percent_move, ruleHit, wAlert]
  · norm_num [runTrace, runFrom, runStep, _refresh_prices_once, mkEntry, idToSymbol,
      ID_TO_SYMBOL, updateMap, initState, histAppend, check_alerts_and_notify, evalRules,
      symToPrice, percent_move, ruleHit, wAlert]
  · norm_num [percent_move]
  · norm_num [ruleHit, percent_move, wAlert]

theorem foldl_hist_untouched (now : ℚ) (data : List SnapEntry) :
    ∀ (h0 : String → List (ℚ × ℚ)) (sym : String),
      sym ∉ data.map SnapEntry.symbol →
      (data.foldl
        (fun h e => fun s' => if s' = e.symbol then histAppend (h s') (now, e.price) else h s')
        h0) sym = h0 sym := by
  induction data with
  | nil => intro h0 sym _; rfl
  | cons e es ih =>
    intro h0 sym hsym
    simp only [List.map_cons, List.mem_cons] at hsym
    push_neg at hsym
    simp only [List.foldl_cons]
    rw [ih _ sym hsym.2]
    rw [if_neg hsym.1]

theorem foldl_hist_once (now : ℚ) (data : List SnapEntry)
    (hnod : (data.map SnapEntry.symbol).Nodup) :
    ∀ (h0 : String → List (ℚ × ℚ)) (e : SnapEntry), e ∈ data →
      (data.foldl
        (fun h e' => fun s' => if s' = e'.symbol then histAppend (h s') (now, e'.price) else h s')
        h0) e.symbol = histAppend (h0 e.symbol) (now, e.price) := by
  induction data with
  | nil => intro h0 e he; simp at he
  | cons d ds ih =>
    intro h0 e he
    simp only [List.map_cons, List.nodup_cons] at hnod
    rcases List.mem_cons.mp he with he | he
    · subst he
      simp only [List.foldl_cons]
      rw [foldl_hist_untouched now ds _ _ hnod.1]
      rw [if_pos rfl]
    · simp only [List.foldl_cons]
      rw [ih hnod.2 _ e he]
      have hne : e.symbol ≠ d.symbol := by
        intro hc
        exact hnod.1 (hc ▸ List.mem_map_of_mem SnapEntry.symbol he)
      rw [if_neg hne]

/-- C4: every failed refresh attempt (a 429 response or any other
exception) returns false, marks the cache stale, records a diagnostic
error string, and leaves the cache entries, the timestamp, every
symbol history and the baseline map untouched; a successful refresh
returns true, replaces the entries wholesale, clears the stale flag
and the error, and appends exactly one sample per fetched symbol. The
success clause assumes distinct fetched symbols drawn from the
tracked set, the regime of the fixed batched request, under which the
pre-seeded history dict of the source cannot raise. No outcome
escapes as an exception: the embedding is total and returns a
boolean for every outcome. -/
theorem C4_refresh_failure_preserves_state :
    (∀ (ra : Option String) (now : ℚ) (s : SysState),
      (_refresh_prices_once (FetchOutcome.rateLimited ra) now s).1 = false
      ∧ (_refresh_prices_once (FetchOutcome.rateLimited ra) now s).2.prices_cache.stale = true
      ∧ (_refresh_prices_once (FetchOutcome.rateLimited ra) now s).2.prices_cache.error
          = some ("429 Too Many Requests. Retry-After=" ++ ra.getD "None")
      ∧ (_refresh_prices_once (FetchOutcome.rateLimited ra) now s).2.prices_cache.data
          = s.prices_cache.data
      ∧ (_refresh_prices_once (FetchOutcome.rateLimited ra) now s).2.prices_cache.ts
          = s.prices_cache.ts
      ∧ (_refresh_prices_once (FetchOutcome.rateLimited ra) now s).2.price_history
          = s.price_history
      ∧ (_refresh_prices_once (FetchOutcome.rateLimited ra) now s).2.last_prices
          = s.last_prices)
    ∧ (∀ (msg : String) (now : ℚ) (s : SysState),
      (_refresh_prices_once (FetchOutcome.failure msg) now s).1 = false
      ∧ (_refresh_prices_once (FetchOutcome.failure msg) now s).2.prices_cache.stale = true
      ∧ (_refresh_prices_once (FetchOutcome.failure msg) now s).2.prices_cache.error = some msg
      ∧ (_refresh_prices_once (FetchOutcome.failure msg) now s).2.prices_cache.data
          = s.prices_cache.data
      ∧ (_refresh_prices_once (FetchOutcome.failure msg) now s).2.prices_cache.ts
          = s.prices_cache.ts
      ∧ (_refresh_prices_once (FetchOutcome.failure msg) now s).2.price_history
          = s.price_history
      ∧ (_refresh_prices_once (FetchOutcome.failure msg) now s).2.last_prices
          = s.last_prices)
    ∧ (∀ (raw : List (String × ℚ × ℚ)) (now : ℚ) (s : SysState),
      (raw.map (fun x => idToSymbol x.1)).Nodup →
      (∀ x ∈ raw, idToSymbol x.1 ∈ SYMBOLS) →
      (_refresh_prices_once (FetchOutcome.ok raw) now s).1 = true
      ∧ (_refresh_prices_once (FetchOutcome.ok raw) now s).2.prices_cache.data
          = raw.map (fun x => mkEntry x.1 x.2.1 x.2.2)
      ∧ (_refresh_prices_once (FetchOutcome.ok raw) now s).2.prices_cache.stale = false
      ∧ (_refresh_prices_once (FetchOutcome.ok raw) now s).2.prices_cache.error = none
      ∧ (_refresh_prices_once (FetchOutcome.ok raw) now s).2.prices_cache.ts = now
      ∧ (∀ x ∈ raw,
          (_refresh_prices_once (FetchOutcome.ok raw) now s).2.price_history (idToSymbol x.1)
            = histAppend (s.price_history (idToSymbol x.1)) (now, x.2.1))
      ∧ (∀ sym, sym ∉ raw.map (fun x => idToSymbol x.1) →
          (_refresh_prices_once (FetchOutcome.ok raw) now s).2.price_history sym
            = s.price_history sym)) := by
  refine ⟨?_, ?_, ?_⟩
  · intro ra now s
    exact ⟨rfl, rfl, rfl, rfl, rfl, rfl, rfl⟩
  · intro msg now s
    exact ⟨rfl, rfl, rfl, rfl, rfl, rfl, rfl⟩
  · intro raw now s hnod htracked
    have hmap : (raw.map (fun x => mkEntry x.1 x.2.1 x.2.2)).map SnapEntry.symbol
        = raw.map (fun x => idToSymbol x.1) := by
      rw [List.map_map]
      rfl
    refine ⟨rfl, rfl, rfl, rfl, rfl, ?_, ?_⟩
    · intro x hx
      have hmem : mkEntry x.1 x.2.1 x.2.2 ∈ raw.map (fun y => mkEntry y.1 y.2.1 y.2.2) :=
        List.mem_map_of_mem _ hx
      have := foldl_hist_once now (raw.map (fun y => mkEntry y.1 y.2.1 y.2.2))
        (by rw [hmap]; exact hnod) s.price_history (mkEntry x.1 x.2.1 x.2.2) hmem
      exact this
    · intro sym hsym
      have := foldl_hist_untouched now (raw.map (fun y => mkEntry y.1 y.2.1 y.2.2))
        s.price_history sym (by rw [hmap]; exact hsym)
      exact this

theorem C4_refresh_failure_preserves_state_witness :
    (_refresh_prices_once (FetchOutcome.failure "boom") 7 initState).1 = false
    ∧ (_refresh_prices_once (FetchOutcome.failure "boom") 7 initState).2.prices_cache.error
        = some "boom"
    ∧ (_refresh_prices_once (FetchOutcome.ok [("bitcoin", 100, 5)]) 7 initState).1 = true
    ∧ (_refresh_prices_once (FetchOutcome.ok [("bitcoin", 100, 5)]) 7
        initState).2.price_history (idToSymbol "bitcoin")
        = histAppend (initState.price_history (idToSymbol "bitcoin")) (7, 100) :=
  ⟨(C4_refresh_failure_preserves_state.2.1 "boom" 7 initState).1,
   (C4_refresh_failure_preserves_state.2.1 "boom" 7 initState).2.2.1,
   (C4_refresh_failure_preserves_state.2.2 [("bitcoin", 100, 5)] 7 initState
      (by simp) (by intro x hx; simp at hx; subst hx; decide)).1,
   (C4_refresh_failure_preserves_state.2.2 [("bitcoin", 100, 5)] 7 initState
      (by simp) (by intro x hx; simp at hx; subst hx; decide)).2.2.2.2.2.1
      ("bitcoin", 100, 5) (by simp)⟩

theorem C9_key_two_decimals_witness :
    round ((100:ℚ) * (5001/1000)) = round ((100:ℚ) * (5004/1000))
    ∧ alertKey ⟨"a", "BTC", Direction.DOWN, 5001/1000⟩
        = alertKey ⟨"a", "BTC", Direction.DOWN, 5004/1000⟩ :=
  ⟨by rw [round_5001_centi, round_5004_centi],
   C9_key_two_decimals.1 "a" "BTC" Direction.DOWN (5001/1000) (5004/1000)
     (by rw [round_5001_centi, round_5004_centi])⟩

theorem conf_of_bounds (c : ℝ) : 1 / 2 ≤ conf_of c ∧ conf_of c < 1 := by
  have he : 0 < Real.exp (-|c| / 6) := Real.exp_pos _
  have hle : Real.exp (-|c| / 6) ≤ 1 := by
    rw [Real.exp_le_one_iff]
    have : (0:ℝ) ≤ |c| := abs_nonneg c
    linarith
  unfold conf_of
  constructor
  · rw [le_div_iff₀ (by linarith)]
    linarith
  · rw [div_lt_one (by linarith)]
    linarith

theorem conf_of_mono {c₁ c₂ : ℝ} (h : |c₁| ≤ |c₂|) : conf_of c₁ ≤ conf_of c₂ := by
  unfold conf_of
  have he : Real.exp (-|c₂| / 6) ≤ Real.exp (-|c₁| / 6) :=
    Real.exp_le_exp.mpr (by linarith)
  have h1 : 0 < 1 + Real.exp (-|c₁| / 6) := by positivity
  have h2 : 0 < 1 + Real.exp (-|c₂| / 6) := by positivity
  rw [div_le_div_iff₀ h1 h2]
  linarith

theorem confidence_of_bounds (c : ℝ) : 50 ≤ confidence_of c ∧ confidence_of c ≤ 100 := by
  obtain ⟨h1, h2⟩ := conf_of_bounds c
  have hx1 : (500:ℝ) ≤ conf_of c * 100 * 10 := by linarith
  have hx2 : conf_of c * 100 * 10 < 1000 := by linarith
  have hr1 : (500:ℤ) ≤ round (conf_of c * 100 * 10) := by
    rw [round_eq]
    refine Int.le_floor.mpr ?_
    push_cast
    linarith
  have hr2 : round (conf_of c * 100 * 10) ≤ 1000 := by
    rw [round_eq]
    have hlt : conf_of c * 100 * 10 + 1 / 2 < ((1001:ℤ) : ℝ) := by push_cast; linarith
    have := Int.floor_lt.mpr hlt
    omega
  have hc1 : ((500:ℤ) : ℝ) ≤ (round (conf_of c * 100 * 10) : ℝ) := by exact_mod_cast hr1
  have hc2 : ((round (conf_of c * 100 * 10) : ℤ) : ℝ) ≤ ((1000:ℤ) : ℝ) := by exact_mod_cast hr2
  unfold confidence_of roundTenth
  constructor
  · rw [le_div_iff₀ (by norm_num)]
    push_cast at hc1 ⊢
    linarith
  · rw [div_le_iff₀ (by norm_num)]
    push_cast at hc2 ⊢
    linarith

theorem confidence_of_mono {c₁ c₂ : ℝ} (h : |c₁| ≤ |c₂|) :
    confidence_of c₁ ≤ confidence_of c₂ := by
  have hm : conf_of c₁ * 100 * 10 ≤ conf_of c₂ * 100 * 10 := by
    have := conf_of_mono h
    linarith
  have hr : round (conf_of c₁ * 100 * 10) ≤ round (conf_of c₂ * 100 * 10) := by
    rw [round_eq, round_eq]
    exact Int.floor_mono (by linarith)
  have hc : ((round (conf_of c₁ * 100 * 10) : ℤ) : ℝ)
      ≤ ((round (conf_of c₂ * 100 * 10) : ℤ) : ℝ) := by exact_mod_cast hr
  unfold confidence_of roundTenth
  linarith

theorem confidence_of_zero : confidence_of 0 = 50 := by
  have h0 : conf_of 0 = 1 / 2 := by
    unfold conf_of
    rw [abs_zero]
    norm_num [Real.exp_zero]
  unfold confidence_of roundTenth
  rw [h0]
  have : ((1:ℝ) / 2 * 100 * 10) = ((500:ℤ) : ℝ) := by norm_num
  rw [this, round_intCast]
  norm_num

theorem exp_23_3_ge : (1999:ℝ) ≤ Real.exp (23 / 3) := by
  have h1 : Real.exp (23 / 3) = Real.exp 1 ^ (7:ℕ) * Real.exp (1 / 6) ^ (4:ℕ) := by
    rw [← Real.exp_nat_mul, ← Real.exp_nat_mul, ← Real.exp_add]
    norm_num
  have h2 : (2.7182818283:ℝ) ^ (7:ℕ) ≤ Real.exp 1 ^ (7:ℕ) :=
    pow_le_pow_left₀ (by norm_num) (le_of_lt Real.exp_one_gt_d9) 7
  have h3 : ((7:ℝ) / 6) ^ (4:ℕ) ≤ Real.exp (1 / 6) ^ (4:ℕ) :=
    pow_le_pow_left₀ (by norm_num)
      (by
        have := Real.add_one_le_exp ((1:ℝ) / 6)
        linarith) 4
  have h4 : (1999:ℝ) ≤ (2.7182818283:ℝ) ^ (7:ℕ) * ((7:ℝ) / 6) ^ (4:ℕ) := by norm_num
  calc (1999:ℝ) ≤ (2.7182818283:ℝ) ^ (7:ℕ) * ((7:ℝ) / 6) ^ (4:ℕ) := h4
    _ ≤ Real.exp 1 ^ (7:ℕ) * Real.exp (1 / 6) ^ (4:ℕ) :=
        mul_le_mul h2 h3 (by norm_num) (by positivity)
    _ = Real.exp (23 / 3) := h1.symm

theorem confidence_of_46 : confidence_of 46 = 100 := by
  have habs : -|(46:ℝ)| / 6 = -(23 / 3) := by
    rw [abs_of_nonneg (by norm_num : (0:ℝ) ≤ 46)]
    norm_num
  have hpos : 0 < Real.exp (-(23 / 3)) := Real.exp_pos _
  have he : Real.exp (-(23 / 3)) ≤ 1 / 1999 := by
    rw [Real.exp_neg]
    rw [inv_le_comm₀ (Real.exp_pos _) (by norm_num)]
    calc ((1:ℝ) / 1999)⁻¹ = 1999 := by norm_num
      _ ≤ Real.exp (23 / 3) := exp_23_3_ge
  have hconf : (1999:ℝ) / 2000 ≤ conf_of 46 ∧ conf_of 46 < 1 := by
    constructor
    · unfold conf_of
      rw [habs, le_div_iff₀ (by linarith)]
      nlinarith
    · exact (conf_of_bounds 46).2
  have hx1 : (999.5:ℝ) ≤ conf_of 46 * 100 * 10 := by nlinarith [hconf.1]
  have hx2 : conf_of 46 * 100 * 10 < 1000 := by nlinarith [hconf.2]
  have hr : round (conf_of 46 * 100 * 10) = 1000 := by
    rw [round_eq]
    rw [Int.floor_eq_iff]
    constructor
    · push_cast
      linarith
    · push_cast
      linarith
  unfold confidence_of roundTenth
  rw [hr]
  norm_num

theorem confidence_of_small : confidence_of (1 / 100) = 50 := by
  have habs : -|(1:ℝ) / 100| / 6 = -(1 / 600) := by
    rw [abs_of_nonneg (by norm_num : (0:ℝ) ≤ 1 / 100)]
    norm_num
  have hlow : (599:ℝ) / 600 ≤ Real.exp (-(1 / 600)) := by
    have := Real.add_one_le_exp (-(1:ℝ) / 600)
    have heq : Real.exp (-(1:ℝ) / 600) = Real.exp (-((1:ℝ) / 600)) := by norm_num
    rw [← heq]
    linarith
  have hup : Real.exp (-(1 / 600)) < 1 := by
    rw [Real.exp_lt_one_iff]
    norm_num
  have hden : (1199:ℝ) / 600 ≤ 1 + Real.exp (-(1 / 600)) := by linarith
  have hconf_up : conf_of (1 / 100) ≤ 600 / 1199 := by
    unfold conf_of
    rw [habs, div_le_div_iff₀ (by linarith) (by norm_num)]
    linarith
  have hconf_low : (1:ℝ) / 2 ≤ conf_of (1 / 100) := (conf_of_bounds _).1
  have hx1 : (500:ℝ) ≤ conf_of (1 / 100) * 100 * 10 := by nlinarith
  have hx2 : conf_of (1 / 100) * 100 * 10 < 500.5 := by nlinarith
  have hr : round (conf_of (1 / 100) * 100 * 10) = 500 := by
    rw [round_eq]
    rw [Int.floor_eq_iff]
    constructor
    · push_cast
      linarith
    · push_cast
      linarith
  unfold confidence_of roundTenth
  rw [hr]
  norm_num

/-- C8 counterexample: a successful refresh for a 24h change of 46
percent produces an entry whose derived confidence is exactly 100.0
after the one-decimal rounding, so the confidence does not lie in the
open interval (0, 100) as claimed. -/
theorem C8_counterexample_confidence_reaches_100 :
    (_refresh_prices_once (FetchOutcome.ok [("bitcoin", 100, 46)]) 0
        initState).2.prices_cache.data = [mkEntry "bitcoin" 100 46]
    ∧ (mkEntry "bitcoin" 100 46).confidenceVal = 100
    ∧ ¬ ((mkEntry "bitcoin" 100 46).confidenceVal < 100) := by
  have hc : (mkEntry "bitcoin" 100 46).confidenceVal = 100 := by
    show confidence_of (((46:ℚ) : ℝ)) = 100
    have : (((46:ℚ) : ℝ)) = 46 := by norm_num
    rw [this]
    exact confidence_of_46
  exact ⟨rfl, hc, by rw [hc]; norm_num⟩

/-- C8 (amended): every entry produced by a successful refresh carries
direction UP exactly when its 24h change is nonnegative and DOWN
otherwise, and a derived confidence, the one-decimal rounding of the
logistic squashing of the absolute change, that lies in the
half-open interval (0, 100] — after rounding the value 100.0 is
attained — and is monotonically nondecreasing in the magnitude of
the change. -/
theorem C8_direction_confidence :
    (∀ (raw : List (String × ℚ × ℚ)) (now : ℚ) (s : SysState),
      ∀ e ∈ (_refresh_prices_once (FetchOutcome.ok raw) now s).2.prices_cache.data,
        (0 ≤ e.change → e.prediction = Direction.UP)
        ∧ (e.change < 0 → e.prediction = Direction.DOWN)
        ∧ 0 < e.confidenceVal ∧ e.confidenceVal ≤ 100)
    ∧ (∀ c₁ c₂ : ℝ, |c₁| ≤ |c₂| → confidence_of c₁ ≤ confidence_of c₂) := by
  constructor
  · intro raw now s e he
    have hdata : (_refresh_prices_once (FetchOutcome.ok raw) now s).2.prices_cache.data
        = raw.map (fun x => mkEntry x.1 x.2.1 x.2.2) := rfl
    rw [hdata] at he
    obtain ⟨x, hx, hxe⟩ := List.mem_map.mp he
    obtain ⟨hb1, hb2⟩ := confidence_of_bounds ((e.change : ℚ) : ℝ)
    refine ⟨?_, ?_, by
        show (0:ℝ) < confidence_of ((e.change : ℚ) : ℝ)
        linarith, hb2⟩
    · intro hch
      rw [← hxe]
      show (if x.2.2 ≥ 0 then Direction.UP else Direction.DOWN) = Direction.UP
      rw [if_pos]
      rw [← hxe] at hch
      exact hch
    · intro hch
      rw [← hxe]
      show (if x.2.2 ≥ 0 then Direction.UP else Direction.DOWN) = Direction.DOWN
      rw [if_neg]
      rw [← hxe] at hch
      exact not_le.mpr hch
  · intro c₁ c₂ h
    exact confidence_of_mono h

theorem C8_direction_confidence_witness :
    ((0:ℚ) ≤ (mkEntry "bitcoin" 100 3).change →
        (mkEntry "bitcoin" 100 3).prediction = Direction.UP)
    ∧ (|(-1 : ℝ)| ≤ |(2 : ℝ)| ∧ confidence_of (-1) ≤ confidence_of 2) :=
  ⟨fun hch => (C8_direction_confidence.1 [("bitcoin", 100, 3)] 0 initState
      (mkEntry "bitcoin" 100 3) (List.mem_singleton_self _)).1 hch,
   by norm_num,
   C8_direction_confidence.2 (-1) 2 (by norm_num)⟩

/-- C10 counterexample: an entry fetched with the nonzero 24h change
of 0.01 percent still gets the rounded confidence 50.0, so confidence
50.0 is not attained exactly when the change is zero. -/
theorem C10_counterexample_small_change :
    ((1:ℚ) / 100) ≠ 0
    ∧ (mkEntry "bitcoin" 1 (1 / 100)).change = 1 / 100
    ∧ (mkEntry "bitcoin" 1 (1 / 100)).confidenceVal = 50 := by
  refine ⟨by norm_num, rfl, ?_⟩
  show confidence_of (((1 / 100 : ℚ) : ℝ)) = 50
  have : (((1 / 100 : ℚ) : ℝ)) = 1 / 100 := by norm_num
  rw [this]
  exact confidence_of_small

/-- C10 (amended): every fetched entry has derived confidence at least
50.0 and at most 100.0, so the lower half of the specified (0, 100)
range is never produced; the confidence equals 50.0 at change zero,
but rounding also maps small nonzero changes to exactly 50.0. -/
theorem C10_confidence_lower_half :
    (∀ (raw : List (String × ℚ × ℚ)) (now : ℚ) (s : SysState),
      ∀ e ∈ (_refresh_prices_once (FetchOutcome.ok raw) now s).2.prices_cache.data,
        50 ≤ e.confidenceVal ∧ e.confidenceVal ≤ 100 ∧ ¬ (e.confidenceVal < 50))
    ∧ confidence_of 0 = 50 := by
  constructor
  · intro raw now s e _
    obtain ⟨h1, h2⟩ := confidence_of_bounds ((e.change : ℚ) : ℝ)
    exact ⟨h1, h2, not_lt.mpr h1⟩
  · exact confidence_of_zero

theorem C10_confidence_lower_half_witness :
    (50:ℝ) ≤ (mkEntry "bitcoin" 100 3).confidenceVal
    ∧ (mkEntry "bitcoin" 100 3).confidenceVal ≤ 100 :=
  ⟨(C10_confidence_lower_half.1 [("bitcoin", 100, 3)] 0 initState
      (mkEntry "bitcoin" 100 3) (List.mem_singleton_self _)).1,
   (C10_confidence_lower_half.1 [("bitcoin", 100, 3)] 0 initState
      (mkEntry "bitcoin" 100 3) (List.mem_singleton_self _)).2.1⟩

end CryptoSpec
